import Mathlib

/-!
Verification development for the windowed-sample builder of the
PlasmaControl/bes-models repository.

The main embedding follows `bes_models_2/elm_classification/train.py`
(`_preprocess_data`, `_get_data`); a second embedding follows the legacy
pipeline in `src/data.py` (`get_data`, `_get_valid_indices`,
`_oversample_data`).

Modelling conventions:
  * numpy float arrays of 0/1 labels are modelled as `List Int`;
  * scalar indexing `arr[i]` with a possibly negative Python index is
    modelled by `npGet` (negative indices wrap, out-of-range raises);
  * slice assignment `arr[a:b] = v` with `0 ≤ a, 0 ≤ b` (the only shape
    appearing in the embedded code) clips silently, modelled by `setRange`;
  * a Python exception is an `Except` error carrying a `PyErr` tag;
  * `np.random.shuffle` is modelled by an arbitrary function parameter
    applied only when the shuffle flag is set;
  * float arithmetic on fractions (`0.2`, divisions) is modelled by exact
    rational arithmetic, with `int(x)` as `Int.floor` (all truncated
    values are nonnegative here, where truncation and floor agree).
-/

namespace BesModels

/-- Python exception outcomes observable in the embedded code paths. -/
inductive PyErr where
  /-- `IndexError`, e.g. `active_elm_indices[0]` on an empty result. -/
  | indexError
  /-- a failed `assert` statement. -/
  | assertionError
  /-- `ZeroDivisionError` from an int or float division by zero. -/
  | zeroDivisionError
  /-- `AttributeError`, e.g. `[].size` on a plain Python list. -/
  | attributeError
  /-- `TypeError` raised by `zip(...)` when an argument is not iterable. -/
  | typeErrorZip
  /-- `TypeError` raised by evaluating `i_stop + 1` when `i_stop` is `None`. -/
  | typeErrorNoneAdd
deriving DecidableEq, Repr

/-- One ELM event: per-timestep signal records (content irrelevant to the
builder, kept as one integer per timestep) and 0/1 labels of equal role.
In the HDF5 source, `signals` is transposed so time is the leading axis;
only the time axis matters for the index arithmetic modelled here. -/
structure Event where
  signals : List Int
  labels : List Int
deriving DecidableEq, Repr

/-- `arr[i]` for a numpy 1-d array: nonnegative indices must be `< len`,
negative indices wrap once (`arr[-k]` is `arr[len-k]`), anything else
raises `IndexError`. -/
def npGet (l : List Int) (i : ℤ) : Except PyErr Int :=
  if 0 ≤ i then
    if i < l.length then .ok (l.getD i.toNat 0) else .error .indexError
  else
    if 0 ≤ i + l.length then .ok (l.getD (i + l.length).toNat 0) else .error .indexError

/-- Helper for `setRange`: positions are counted from `i`. -/
def setRangeGo (lo hi : ℤ) (v : Int) : ℤ → List Int → List Int
  | _, [] => []
  | i, x :: xs => (if lo ≤ i ∧ i < hi then v else x) :: setRangeGo lo hi v (i + 1) xs

/-- Slice assignment `arr[lo:hi] = v` for `0 ≤ lo` and `0 ≤ hi`
(numpy clips such slices to the array bounds; the embedded code never
uses a negative slice endpoint). -/
def setRange (l : List Int) (lo hi : ℤ) (v : Int) : List Int :=
  setRangeGo lo hi v 0 l

/-- `np.nonzero(labels == 1)[0][0]`: index of the first label equal to 1,
`none` when there is no such label (in which case the source raises
`IndexError` at the `[0]` access). -/
def firstActive : List Int → Option ℕ
  | [] => none
  | x :: xs => if x = 1 then some 0 else (firstActive xs).map (· + 1)

/-- Per-event body of `_preprocess_data` (train.py lines 413-447): find the
first active label, compute the largest valid `t0` for the pre-ELM period,
run the boundary assertions, build the valid-`t0` mask, and extend the
labels over the look-ahead range.  `.ok none` models the `return None`
taken when the pre-ELM period is shorter than the signal window (this
aborts the whole `_preprocess_data` call).  Returns the mask and the
extended labels. -/
def processEvent (W L : ℕ) (ev : Event) : Except PyErr (Option (List Int × List Int)) :=
  match firstActive ev.labels with
  | none => .error .indexError
  | some a =>
    -- largest `t0` index with signal window in pre-ELM period
    let largest : ℤ := (a : ℤ) - (W : ℤ)
    if largest < 0 then
      -- insufficient pre-elm period for signal window size
      .ok none
    else
      match npGet ev.labels (largest + ((W : ℤ) - 1)) with
      | .error e => .error e
      | .ok v1 =>
        if v1 ≠ 0 then .error .assertionError else
        match npGet ev.labels (largest + ((W : ℤ) - 1) + 1) with
        | .error e => .error e
        | .ok v2 =>
          if v2 ≠ 1 then .error .assertionError else
          -- valid_t0 = zeros; valid_t0[0 : largest+1] = 1
          let validT0 := setRange (List.replicate ev.labels.length 0) 0 (largest + 1) 1
          match npGet validT0 largest with
          | .error e => .error e
          | .ok w1 =>
            if w1 ≠ 1 then .error .assertionError else
            match npGet validT0 (largest + 1) with
            | .error e => .error e
            | .ok w2 =>
              if w2 ≠ 0 then .error .assertionError else
              -- labels after ELM onset should be active ELM
              let lastLabel : ℤ := largest + ((W : ℤ) - 1) + (L : ℤ)
              let labels2 := setRange ev.labels (a : ℤ) (lastLabel + 1) 1
              match npGet labels2 lastLabel with
              | .error e => .error e
              | .ok v3 =>
                if v3 ≠ 1 then .error .assertionError else
                .ok (some (validT0, labels2))

/-- Accumulated concatenation state of `_preprocess_data`'s event loop. -/
structure Packaged where
  signals : List Int
  labels : List Int
  validT0 : List Int
  windowStart : List ℤ
deriving DecidableEq, Repr

/-- Concatenation step (train.py lines 448-461): the first event
initializes the packaged arrays with `window_start = [0]`; later events
append `last_index + 1` (the current packaged length) to `window_start`
and concatenate the arrays. -/
def appendPkg (acc : Option Packaged) (sig lab vt : List Int) : Packaged :=
  match acc with
  | none => ⟨sig, lab, vt, [0]⟩
  | some p =>
      ⟨p.signals ++ sig, p.labels ++ lab, p.validT0 ++ vt,
       p.windowStart ++ [(p.labels.length : ℤ)]⟩

/-- Outcome of the event loop: `abort` when some event took the
`return None` path, otherwise the packaged state (`none` when the loop
body never ran, i.e. no events). -/
inductive BuildRes where
  | abort
  | done (p : Option Packaged)
deriving DecidableEq, Repr

/-- The event loop of `_preprocess_data`. -/
def buildGo (W L : ℕ) (acc : Option Packaged) : List Event → Except PyErr BuildRes
  | [] => .ok (.done acc)
  | ev :: rest =>
    match processEvent W L ev with
    | .error e => .error e
    | .ok none => .ok .abort
    | .ok (some (vt, lab)) => buildGo W L (some (appendPkg acc ev.signals lab vt)) rest

/-- `np.arange(valid_t0.size)[valid_t0 == 1]`: positions of the packaged
valid-`t0` mask holding 1, in increasing order. -/
def validIndicesOf (validT0 : List Int) : List ℤ :=
  List.map (fun i : ℕ => (i : ℤ))
    ((List.range validT0.length).filter (fun i => validT0.getD i 0 == 1))

/-- Offset from a window origin to its label-target index:
`(signal_window_size - 1) + label_look_ahead`. -/
def labelShift (W L : ℕ) : ℤ := ((W : ℤ) - 1) + (L : ℤ)

/-- Fancy indexing `labels[indices]` (element-wise `npGet`, first failure
raises). -/
def mapNpGet (labels : List Int) : List ℤ → Except PyErr (List Int)
  | [] => .ok []
  | i :: is =>
    match npGet labels i with
    | .error e => .error e
    | .ok v =>
      match mapNpGet labels is with
      | .error e => .error e
      | .ok vs => .ok (v :: vs)

/-- `np.count_nonzero(labels_for_valid_t0)`. -/
def countActive (xs : List Int) : ℕ := xs.countP (fun x => x != 0)

/-- `np.count_nonzero(labels_for_valid_t0 - 1)`: entries different from 1. -/
def countInactive (xs : List Int) : ℕ := xs.countP (fun x => x != 1)

/-- `int(min_active_elm_fraction * n_inactive / (n_active * (1 - min_active_elm_fraction))) + 1`
with `min_active_elm_fraction = 0.2`, in exact rational arithmetic (the
truncated value is nonnegative, so `int` truncation is `Int.floor`). -/
def oversampleFactor (nA nI : ℕ) : ℤ :=
  ⌊(1 / 5 * (nI : ℚ)) / ((nA : ℚ) * (1 - 1 / 5))⌋ + 1

/-- `packaged_label_indices_for_valid_t0`: each origin plus
`(signal_window_size - 1) + label_look_ahead`. -/
def labelIndicesFor (W L : ℕ) (idx : List ℤ) : List ℤ :=
  idx.map (fun i => i + labelShift W L)

/-- `packaged_active_elm_label_indices_for_valid_t0`: the label indices
whose looked-up label equals 1. -/
def activeLabelIndicesOf (labelIdx : List ℤ) (labsV : List Int) : List ℤ :=
  List.map Prod.fst ((labelIdx.zip labsV).filter (fun p => p.2 == 1))

/-- `packaged_active_elm_valid_t0_indices`: map active label indices back
to their origins. -/
def activeOriginsOf (W L : ℕ) (labelIdx : List ℤ) (labsV : List Int) : List ℤ :=
  (activeLabelIndicesOf labelIdx labsV).map (fun i => i - labelShift W L)

/-- The sample-index array after the oversampling loop: the original valid
origins followed by `oversample_factor - 1` appended copies of the
active-target origins. -/
def oversampledIndices (W L : ℕ) (vt : List Int) (labsV : List Int) : List ℤ :=
  validIndicesOf vt ++
    (List.replicate
        ((oversampleFactor (countActive labsV) (countInactive labsV) - 1).toNat)
        (activeOriginsOf W L (labelIndicesFor W L (validIndicesOf vt)) labsV)).flatten

/-- Lines 463-509 of train.py: compute the valid sampling indices from the
packaged mask, count active/inactive look-ahead targets, and (for the
training split) oversample the active-target origins when their fraction
is below the hardcoded floor 0.2. -/
def buildSampleIndices (W L : ℕ) (oversample : Bool) (labels validT0 : List Int) :
    Except PyErr (List ℤ) :=
  let validIdx := validIndicesOf validT0
  let labelIdx := labelIndicesFor W L validIdx
  match mapNpGet labels labelIdx with
  | .error e => .error e
  | .ok labsV =>
    let nA := countActive labsV
    let nI := countInactive labsV
    if nA + nI = 0 then .error .zeroDivisionError
    else
      let frac : ℚ := (nA : ℚ) / ((nA : ℚ) + (nI : ℚ))
      if oversample = true ∧ frac < 1 / 5 then
        if nA = 0 then .error .zeroDivisionError
        else
          let factor := oversampleFactor nA nI
          if factor < 1 then .error .assertionError
          else
            let newIdx := oversampledIndices W L validT0 labsV
            match mapNpGet labels (labelIndicesFor W L newIdx) with
            | .error e => .error e
            | .ok labsV2 =>
              if countActive labsV2 + countInactive labsV2 = 0 then
                .error .zeroDivisionError
              else .ok newIdx
      else .ok validIdx

/-- Emitted tuple of `_preprocess_data` (minus the passthrough event id
list): packaged signals, extended labels, sample indices, window starts. -/
structure Result where
  signals : List Int
  labels : List Int
  sampleIndices : List ℤ
  windowStart : List ℤ
deriving DecidableEq, Repr

/-- `_preprocess_data` up to (not including) the shuffle step.  An empty
event list leaves `packaged_valid_t0` as the plain Python list `[]`, whose
`.size` access raises `AttributeError`. -/
def preprocessCore (W L : ℕ) (oversample : Bool) (events : List Event) :
    Except PyErr (Option Result) :=
  match buildGo W L none events with
  | .error e => .error e
  | .ok .abort => .ok none
  | .ok (.done none) => .error .attributeError
  | .ok (.done (some p)) =>
    match buildSampleIndices W L oversample p.labels p.validT0 with
    | .error e => .error e
    | .ok idx => .ok (some ⟨p.signals, p.labels, idx, p.windowStart⟩)

/-- Full `_preprocess_data`: the shuffle step (lines 511-512) permutes the
sample indices in place when requested; `shuffleFn` stands for the effect
of `np.random.shuffle`. -/
def preprocessData (W L : ℕ) (oversample shuffle : Bool)
    (shuffleFn : List ℤ → List ℤ) (events : List Event) :
    Except PyErr (Option Result) :=
  match preprocessCore W L oversample events with
  | .error e => .error e
  | .ok none => .ok none
  | .ok (some r) =>
    .ok (some (if shuffle then { r with sampleIndices := shuffleFn r.sampleIndices } else r))

/-- `_get_data` (train.py lines 380-399): the training split is built with
`shuffle_indices=True, oversample_active_elm=True`; the validation and
test splits with both flags `False`. -/
def getDataSplits (W L : ℕ) (shuffleFn : List ℤ → List ℤ)
    (trainEvs valEvs testEvs : List Event) :
    Except PyErr (Option Result) × Except PyErr (Option Result) ×
      Except PyErr (Option Result) :=
  (preprocessData W L true true shuffleFn trainEvs,
   preprocessData W L false false shuffleFn valEvs,
   preprocessData W L false false shuffleFn testEvs)

/-! ### Legacy pipeline: `src/data.py` (`Data.get_data`, `_get_valid_indices`,
`_oversample_data`).  Labels are floats compared against `0.5`; with the
integral label model, `label >= 0.5` is `1 ≤ label`. -/

/-- Normalize one endpoint of a Python slice over an array of length `n`
(negative endpoints count from the end, everything clips to `[0, n]`). -/
def pySliceIdx (n : ℕ) (i : ℤ) : ℤ :=
  if i < 0 then max 0 (i + n) else min i n

/-- The Python slice `l[a : b]`. -/
def pySlice (l : List Int) (a b : ℤ) : List Int :=
  let a' := (pySliceIdx l.length a).toNat
  let b' := (pySliceIdx l.length b).toNat
  (l.drop a').take (b' - a')

/-- `np.arange(a, b)` over integers. -/
def intRange (a b : ℤ) : List ℤ :=
  (List.range (b - a).toNat).map (fun k => a + (k : ℤ))

/-- `np.nonzero(_labels >= 0.5)[0]`: indices of active labels. -/
def activeIdxs (labels : List Int) : List ℕ :=
  (List.range labels.length).filter (fun i => decide (1 ≤ labels.getD i 0))

/-- `_valid_t0` of `_get_valid_indices` (data.py lines 334-337):
`np.ones(...)` with the Python slice `[-(W+L)+1 :]` assigned 0. -/
def dataValidT0 (W L : ℕ) (n : ℕ) : List Int :=
  setRange (List.replicate n 1) (pySliceIdx n (1 - (W : ℤ) - (L : ℤ))) (n : ℤ) 0

/-- Accumulated state of `Data.get_data`'s event loop.  In the Python
source, `elm_start_indices` is a bare numpy scalar after the first event
(hence not iterable) and `elm_stop_indices` is still the value `None`:
the initialization branch (data.py lines 342-349) assigns
`elm_start_indices` twice — first `active_elm_events[0]`, then
immediately `active_elm_events[-1]` — and never assigns
`elm_stop_indices`.  `elmStop = none` models that un-assigned `None`. -/
structure DPkg where
  signals : List Int
  labels : List Int
  validT0 : List Int
  windowStart : List ℤ
  elmStart : List ℤ
  elmStop : Option (List (Option ℤ))
deriving DecidableEq, Repr

/-- One step of `_get_valid_indices` (data.py lines 288-373). -/
def dataGetValidIndices (W L : ℕ) (acc : Option DPkg) (ev : Event) :
    Except PyErr DPkg :=
  let vt := dataValidT0 W L ev.labels.length
  let active := activeIdxs ev.labels
  match acc with
  | none =>
    match active.getLast? with
    | none => .error .indexError  -- active_elm_events[0] on an empty result
    | some last =>
      -- BUG kept from the source: `elm_start_indices` ends up holding the
      -- *last* active index (the second of two assignments), and
      -- `elm_stop_indices` is never assigned (stays None).
      .ok ⟨ev.signals, ev.labels, vt, [0], [(last : ℤ)], none⟩
  | some p =>
    match active.head?, active.getLast? with
    | some first, some last =>
      let lastIndex : ℤ := (p.labels.length : ℤ) - 1
      let newStop : List (Option ℤ) :=
        match p.elmStop with
        | none => [none, some ((last : ℤ) + lastIndex + 1)]
        | some l => l ++ [some ((last : ℤ) + lastIndex + 1)]
      .ok ⟨p.signals ++ ev.signals, p.labels ++ ev.labels, p.validT0 ++ vt,
           p.windowStart ++ [lastIndex + 1],
           p.elmStart ++ [(first : ℤ) + lastIndex + 1],
           some newStop⟩
    | _, _ => .error .indexError

/-- The event loop of `Data.get_data`. -/
def dataBuild (W L : ℕ) : List Event → Option DPkg → Except PyErr (Option DPkg)
  | [], acc => .ok acc
  | ev :: rest, acc =>
    match dataGetValidIndices W L acc ev with
    | .error e => .error e
    | .ok p => dataBuild W L rest (some p)

/-- Body of `_oversample_data`'s loop over `zip(elm_start, elm_stop)`
(data.py lines 412-418).  A `None` stop makes `i_stop + 1` raise
`TypeError`. -/
def dataZipLoop (labels : List Int) (count : ℤ) (buffer : ℤ) :
    List (ℤ × Option ℤ) → List ℤ → Except PyErr (List ℤ)
  | [], sample => .ok sample
  | (s, stop) :: rest, sample =>
    match stop with
    | none => .error .typeErrorNoneAdd
    | some st =>
      -- assert np.all(_labels[i_start : i_stop + 1] >= 0.5)
      if (pySlice labels s (st + 1)).all (fun x => decide (1 ≤ x)) then
        let window := intRange (s - buffer) (st + buffer)
        -- np.tile(window, [oversample_count]), clamped at 0 repetitions
        dataZipLoop labels count buffer rest
          (sample ++ (List.replicate count.toNat window).flatten)
      else .error .assertionError

/-- `_oversample_data` (data.py lines 375-424). -/
def dataOversample (labels : List Int) (validIdx : List ℤ)
    (elmStart : List ℤ) (elmStop : Option (List (Option ℤ))) :
    Except PyErr (List ℤ) :=
  if labels.length = 0 then .error .zeroDivisionError
  else
    let nz := labels.countP (fun x => decide (1 ≤ x))
    if nz = 0 then .error .zeroDivisionError  -- (1 - fraction) / fraction
    else
      let frac : ℚ := (nz : ℚ) / (labels.length : ℚ)
      let count : ℤ := ⌊(1 - frac) / frac⌋ - 1
      match elmStop with
      | none =>
        -- zip(elm_start, elm_stop): elm_stop is None (and after one event
        -- elm_start is a bare numpy scalar) — not iterable.
        .error .typeErrorZip
      | some stops =>
        match dataZipLoop labels count 20 (elmStart.zip stops) validIdx with
        | .error e => .error e
        | .ok sample =>
          match mapNpGet labels sample with
          | .error e => .error e
          | .ok _vals =>
            if sample.length = 0 then .error .zeroDivisionError
            else .ok sample

/-- `Data.get_data` (data.py lines 94-187), with the event list supplied:
concatenate events, compute valid indices, oversample, emit the tuple. -/
def dataGetData (W L : ℕ) (events : List Event) :
    Except PyErr (List Int × List Int × List ℤ × List ℤ) :=
  match dataBuild W L events none with
  | .error e => .error e
  | .ok none => .error .attributeError  -- `[].size` on the Python list valid_t0
  | .ok (some p) =>
    let validIdx := validIndicesOf p.validT0
    match dataOversample p.labels validIdx p.elmStart p.elmStop with
    | .error e => .error e
    | .ok sample => .ok (p.signals, p.labels, sample, p.windowStart)

/-! ### Concrete inputs used by the witnesses and counterexamples -/

/-- Scenario A labels: 50 inactive, 10 active, 40 inactive timesteps. -/
def labScenarioA : List Int :=
  List.replicate 50 0 ++ List.replicate 10 1 ++ List.replicate 40 0

/-- Scenario A event (signal content is irrelevant to the builder). -/
def evScenarioA : Event := ⟨List.replicate 100 0, labScenarioA⟩

/-- Scenario A valid-origin mask for `W = 20`: origins `0..30` valid. -/
def vtScenarioA : List Int := setRange (List.replicate 100 0) 0 31 1

/-- Scenario A labels after extension for `W = 20`, `L = 5`: indices
`50..54` set to 1 (they already were). -/
def labScenarioA2 : List Int := setRange labScenarioA 50 55 1

/-- An event whose active period starts at index 0: no room for any
window of size `W ≥ 1` before onset. -/
def evShortPre : Event := ⟨[9, 9, 9, 9, 9], [1, 0, 0, 0, 0]⟩

/-- A well-formed small event: onset at index 3, processable with
`W = 3`, `L = 1`. -/
def evGoodSmall : Event := ⟨[7, 7, 7, 7, 7], [0, 0, 0, 1, 0]⟩

/-- An event with no active label at all. -/
def evNoActive : Event := ⟨[8, 8, 8], [0, 0, 0]⟩

/-- Labels with one active target among six valid origins (for the
oversampling witness, `W = 1`, `L = 0`). -/
def labOversample : List Int := [0, 0, 0, 0, 0, 1]

/-- All-ones mask of length 6. -/
def vtOversample : List Int := [1, 1, 1, 1, 1, 1]

/-- The emitted tuple for the split `[evGoodSmall, evGoodSmall]` with
`W = 3`, `L = 1`, no oversampling, no shuffling. -/
def resTwoGood : Result :=
  ⟨[7, 7, 7, 7, 7, 7, 7, 7, 7, 7], [0, 0, 0, 1, 0, 0, 0, 0, 1, 0],
    [0, 5], [0, 5]⟩

/-- The emitted tuple for the split `[evGoodSmall]` with `W = 3`, `L = 1`. -/
def resOneGood : Result := ⟨[7, 7, 7, 7, 7], [0, 0, 0, 1, 0], [0], [0]⟩

/-- A small event for the legacy pipeline: one active label at index 1. -/
def evLegacyA : Event := ⟨[5, 5, 5], [0, 1, 0]⟩

/-- A second small event for the legacy pipeline. -/
def evLegacyB : Event := ⟨[6, 6, 6, 6], [0, 0, 1, 1]⟩

/-! ### Basic lemmas about the numpy primitives -/

theorem setRangeGo_length (lo hi : ℤ) (v : Int) :
    ∀ (i : ℤ) (l : List Int), (setRangeGo lo hi v i l).length = l.length := by
  intro i l
  induction l generalizing i with
  | nil => rfl
  | cons x xs ih => simp [setRangeGo, ih]

theorem setRange_length (l : List Int) (lo hi : ℤ) (v : Int) :
    (setRange l lo hi v).length = l.length :=
  setRangeGo_length lo hi v 0 l

theorem setRangeGo_getD (lo hi : ℤ) (v : Int) :
    ∀ (i : ℤ) (l : List Int) (j : ℕ), j < l.length →
      (setRangeGo lo hi v i l).getD j 0 =
        if lo ≤ i + j ∧ i + j < hi then v else l.getD j 0 := by
  intro i l
  induction l generalizing i with
  | nil => intro j hj; simp at hj
  | cons x xs ih =>
    intro j hj
    cases j with
    | zero => simp [setRangeGo]
    | succ k =>
      simp only [setRangeGo, List.getD_cons_succ]
      rw [ih (i + 1) k (by simpa using Nat.lt_of_succ_lt_succ hj)]
      have : i + 1 + (k : ℤ) = i + ((k : ℤ) + 1) := by ring
      simp only [this, Nat.cast_succ]

theorem setRange_getD (l : List Int) (lo hi : ℤ) (v : Int) (j : ℕ) (hj : j < l.length) :
    (setRange l lo hi v).getD j 0 =
      if lo ≤ (j : ℤ) ∧ (j : ℤ) < hi then v else l.getD j 0 := by
  have := setRangeGo_getD lo hi v 0 l j hj
  simpa using this

theorem npGet_ok_of_nonneg {l : List Int} {i : ℤ} (h0 : 0 ≤ i) (hl : i < l.length) :
    npGet l i = .ok (l.getD i.toNat 0) := by
  simp [npGet, h0, hl]

theorem npGet_ok_elim {l : List Int} {i : ℤ} {v : Int} (h0 : 0 ≤ i)
    (h : npGet l i = .ok v) : i < l.length ∧ v = l.getD i.toNat 0 := by
  rw [npGet, if_pos h0] at h
  by_cases hl : i < l.length
  · rw [if_pos hl] at h
    exact ⟨hl, (Except.ok.inj h).symm⟩
  · rw [if_neg hl] at h
    exact absurd h (by simp)

theorem firstActive_spec {l : List Int} {a : ℕ} (h : firstActive l = some a) :
    a < l.length ∧ l.getD a 0 = 1 ∧ ∀ j : ℕ, j < a → l.getD j 0 ≠ 1 := by
  induction l generalizing a with
  | nil => simp [firstActive] at h
  | cons x xs ih =>
    by_cases hx : x = 1
    · simp [firstActive, hx] at h
      subst h
      simp [hx]
    · simp only [firstActive, if_neg hx, Option.map_eq_some'] at h
      obtain ⟨b, hb, rfl⟩ := h
      obtain ⟨h1, h2, h3⟩ := ih hb
      refine ⟨by simpa using h1, by simpa using h2, ?_⟩
      intro j hj
      cases j with
      | zero => simpa using hx
      | succ k =>
        have := h3 k (by omega)
        simpa using this

theorem firstActive_eq_none_iff {l : List Int} :
    firstActive l = none ↔ ∀ x ∈ l, x ≠ 1 := by
  induction l with
  | nil => simp [firstActive]
  | cons x xs ih =>
    by_cases hx : x = 1
    · simp [firstActive, hx]
    · simp [firstActive, hx, ih]

theorem firstActive_isSome_of_mem {l : List Int} (h : ∃ x ∈ l, x = 1) :
    ∃ a, firstActive l = some a := by
  cases hf : firstActive l with
  | none =>
    obtain ⟨x, hx, h1⟩ := h
    exact absurd h1 (firstActive_eq_none_iff.mp hf x hx)
  | some a => exact ⟨a, rfl⟩

theorem mem_validIndicesOf {vt : List Int} {x : ℤ} :
    x ∈ validIndicesOf vt ↔ ∃ i : ℕ, i < vt.length ∧ vt.getD i 0 = 1 ∧ x = (i : ℤ) := by
  unfold validIndicesOf
  rw [List.mem_map]
  constructor
  · rintro ⟨i, hmem, rfl⟩
    rw [List.mem_filter, List.mem_range] at hmem
    exact ⟨i, hmem.1, by simpa using hmem.2, rfl⟩
  · rintro ⟨i, hi, hv, rfl⟩
    exact ⟨i, List.mem_filter.mpr ⟨List.mem_range.mpr hi, by simpa using hv⟩, rfl⟩

theorem validIndicesOf_pairwise_lt (vt : List Int) :
    (validIndicesOf vt).Pairwise (· < ·) := by
  unfold validIndicesOf
  refine List.Pairwise.map _ (fun a b hab => ?_)
    (List.Pairwise.sublist (List.filter_sublist _) (List.pairwise_lt_range _))
  exact_mod_cast hab

theorem validIndicesOf_sorted (vt : List Int) :
    (validIndicesOf vt).Sorted (· ≤ ·) :=
  (validIndicesOf_pairwise_lt vt).imp le_of_lt

theorem validIndicesOf_nodup (vt : List Int) :
    (validIndicesOf vt).Nodup :=
  (validIndicesOf_pairwise_lt vt).imp ne_of_lt

theorem mapNpGet_ok_append {l : List Int} {xs ys : List ℤ} {vs ws : List Int}
    (h1 : mapNpGet l xs = .ok vs) (h2 : mapNpGet l ys = .ok ws) :
    mapNpGet l (xs ++ ys) = .ok (vs ++ ws) := by
  induction xs generalizing vs with
  | nil =>
    simp only [mapNpGet] at h1
    cases h1
    simpa using h2
  | cons i is ih =>
    rw [List.cons_append]
    simp only [mapNpGet] at h1 ⊢
    cases hg : npGet l i with
    | error e => rw [hg] at h1; exact absurd h1 (by simp)
    | ok v =>
      rw [hg] at h1
      cases hm : mapNpGet l is with
      | error e => rw [hm] at h1; exact absurd h1 (by simp)
      | ok us =>
        rw [hm] at h1
        cases h1
        rw [ih hm]
        simp

theorem mapNpGet_ok_of_forall {l : List Int} {c : Int} {xs : List ℤ}
    (h : ∀ x ∈ xs, npGet l x = .ok c) :
    mapNpGet l xs = .ok (List.replicate xs.length c) := by
  induction xs with
  | nil => simp [mapNpGet]
  | cons i is ih =>
    simp only [mapNpGet]
    rw [h i (by simp), ih (fun x hx => h x (by simp [hx]))]
    simp [List.replicate_succ]

theorem mapNpGet_ok_zip {l : List Int} {xs : List ℤ} {vs : List Int}
    (h : mapNpGet l xs = .ok vs) :
    ∀ p ∈ xs.zip vs, npGet l p.1 = .ok p.2 := by
  induction xs generalizing vs with
  | nil => simp only [mapNpGet] at h; cases h; simp
  | cons i is ih =>
    simp only [mapNpGet] at h
    cases hg : npGet l i with
    | error e => rw [hg] at h; exact absurd h (by simp)
    | ok v =>
      rw [hg] at h
      cases hm : mapNpGet l is with
      | error e => rw [hm] at h; exact absurd h (by simp)
      | ok us =>
        rw [hm] at h
        cases h
        intro p hp
        rcases List.mem_cons.mp hp with rfl | hp'
        · exact hg
        · exact ih hm _ hp'

theorem mapNpGet_length {l : List Int} {xs : List ℤ} {vs : List Int}
    (h : mapNpGet l xs = .ok vs) : vs.length = xs.length := by
  induction xs generalizing vs with
  | nil => simp only [mapNpGet] at h; cases h; rfl
  | cons i is ih =>
    simp only [mapNpGet] at h
    cases hg : npGet l i with
    | error e => rw [hg] at h; exact absurd h (by simp)
    | ok v =>
      rw [hg] at h
      cases hm : mapNpGet l is with
      | error e => rw [hm] at h; exact absurd h (by simp)
      | ok us =>
        rw [hm] at h
        cases h
        simp [ih hm]

/-! ### Specification of `processEvent` on the success path -/

theorem processEvent_ok_exists_firstActive {W L : ℕ} {ev : Event}
    {r : List Int × List Int} (h : processEvent W L ev = .ok (some r)) :
    ∃ a, firstActive ev.labels = some a := by
  cases hf : firstActive ev.labels with
  | none => unfold processEvent at h; rw [hf] at h; exact absurd h (by simp)
  | some a => exact ⟨a, rfl⟩

theorem processEvent_ok_spec {W L : ℕ} (hW : 1 ≤ W) {ev : Event} {a : ℕ}
    {vt lab : List Int} (ha : firstActive ev.labels = some a)
    (h : processEvent W L ev = .ok (some (vt, lab))) :
    W ≤ a ∧ a < ev.labels.length ∧ a + L ≤ ev.labels.length ∧
      vt = setRange (List.replicate ev.labels.length 0) 0 ((a : ℤ) - (W : ℤ) + 1) 1 ∧
      lab = setRange ev.labels (a : ℤ) ((a : ℤ) + (L : ℤ)) 1 ∧
      npGet lab ((a : ℤ) - (W : ℤ) + ((W : ℤ) - 1) + (L : ℤ)) = .ok 1 := by
  have halen := (firstActive_spec ha).1
  simp only [processEvent, ha] at h
  split at h
  · exact absurd h (by simp)
  next hneg =>
  have hWa : W ≤ a := by omega
  split at h
  next e heq => exact absurd h (by simp)
  next v1 heq1 =>
  split at h
  next hv1 => exact absurd h (by simp)
  next hv1 =>
  split at h
  next e heq => exact absurd h (by simp)
  next v2 heq2 =>
  split at h
  next hv2 => exact absurd h (by simp)
  next hv2 =>
  split at h
  next e heq => exact absurd h (by simp)
  next w1 heq3 =>
  split at h
  next hw1 => exact absurd h (by simp)
  next hw1 =>
  split at h
  next e heq => exact absurd h (by simp)
  next w2 heq4 =>
  split at h
  next hw2 => exact absurd h (by simp)
  next hw2 =>
  split at h
  next e heq => exact absurd h (by simp)
  next v3 heq5 =>
  split at h
  next hv3 => exact absurd h (by simp)
  next hv3 =>
  simp only [Except.ok.injEq, Option.some.injEq, Prod.mk.injEq] at h
  obtain ⟨hvt, hlab⟩ := h
  have hidx : (0 : ℤ) ≤ (a : ℤ) - (W : ℤ) + ((W : ℤ) - 1) + (L : ℤ) := by omega
  have hlen2 : (setRange ev.labels (a : ℤ)
      ((a : ℤ) - (W : ℤ) + ((W : ℤ) - 1) + (L : ℤ) + 1) 1).length = ev.labels.length :=
    setRange_length _ _ _ _
  have := (npGet_ok_elim hidx heq5).1
  rw [hlen2] at this
  have haL : a + L ≤ ev.labels.length := by omega
  have harith : (a : ℤ) - (W : ℤ) + ((W : ℤ) - 1) + (L : ℤ) + 1 = (a : ℤ) + (L : ℤ) := by
    ring
  have hv3' : v3 = 1 := not_ne_iff.mp hv3
  rw [hlab, hv3'] at heq5
  refine ⟨hWa, halen, haL, hvt.symm, ?_, heq5⟩
  rw [← hlab, harith]

theorem processEvent_ok_lengths {W L : ℕ} (hW : 1 ≤ W) {ev : Event} {a : ℕ}
    {vt lab : List Int} (ha : firstActive ev.labels = some a)
    (h : processEvent W L ev = .ok (some (vt, lab))) :
    vt.length = ev.labels.length ∧ lab.length = ev.labels.length := by
  obtain ⟨-, -, -, hvt, hlab, -⟩ := processEvent_ok_spec hW ha h
  constructor
  · rw [hvt, setRange_length, List.length_replicate]
  · rw [hlab, setRange_length]

theorem processEvent_mask_getD {W L : ℕ} (hW : 1 ≤ W) {ev : Event} {a : ℕ}
    {vt lab : List Int} (ha : firstActive ev.labels = some a)
    (h : processEvent W L ev = .ok (some (vt, lab))) :
    ∀ i : ℕ, i < ev.labels.length →
      (vt.getD i 0 = 1 ↔ (i : ℤ) ≤ (a : ℤ) - (W : ℤ)) := by
  obtain ⟨-, -, -, hvt, -, -⟩ := processEvent_ok_spec hW ha h
  intro i hi
  rw [hvt, setRange_getD _ _ _ _ _ (by simpa using hi)]
  constructor
  · intro hone
    by_contra hgt
    rw [if_neg (by omega)] at hone
    rw [List.getD_eq_getElem _ _ (by simpa using hi)] at hone
    simp at hone
  · intro hle
    rw [if_pos (by omega)]

theorem processEvent_mask_getD_eq {W L : ℕ} (hW : 1 ≤ W) {ev : Event} {a : ℕ}
    {vt lab : List Int} (ha : firstActive ev.labels = some a)
    (h : processEvent W L ev = .ok (some (vt, lab))) :
    ∀ i : ℕ, i < ev.labels.length →
      vt.getD i 0 = if (i : ℤ) ≤ (a : ℤ) - (W : ℤ) then 1 else 0 := by
  obtain ⟨-, -, -, hvt, -, -⟩ := processEvent_ok_spec hW ha h
  intro i hi
  rw [hvt, setRange_getD _ _ _ _ _ (by simpa using hi)]
  by_cases hc : (i : ℤ) ≤ (a : ℤ) - (W : ℤ)
  · rw [if_pos (by omega), if_pos hc]
  · rw [if_neg (by omega), if_neg hc]
    rw [List.getD_eq_getElem _ _ (by simpa using hi)]
    simp

theorem processEvent_lab_getD {W L : ℕ} (hW : 1 ≤ W) {ev : Event} {a : ℕ}
    {vt lab : List Int} (ha : firstActive ev.labels = some a)
    (h : processEvent W L ev = .ok (some (vt, lab))) :
    ∀ i : ℕ, i < ev.labels.length →
      lab.getD i 0 =
        if (a : ℤ) ≤ (i : ℤ) ∧ (i : ℤ) < (a : ℤ) + (L : ℤ) then 1
        else ev.labels.getD i 0 := by
  obtain ⟨-, -, -, -, hlab, -⟩ := processEvent_ok_spec hW ha h
  intro i hi
  rw [hlab, setRange_getD _ _ _ _ _ hi]

/-! ### Concatenation invariant: valid origins never reach an event boundary -/

/-- Invariant of the packaged state: window starts are within bounds, and
every origin marked valid has its label target strictly inside the same
event (before any later window start and inside the timeline). -/
def PkgOk (W L : ℕ) (p : Packaged) : Prop :=
  p.validT0.length = p.labels.length ∧
  (∀ w ∈ p.windowStart, 0 ≤ w ∧ w ≤ (p.labels.length : ℤ)) ∧
  (∀ i : ℕ, i < p.validT0.length → p.validT0.getD i 0 = 1 →
    (i : ℤ) + labelShift W L < (p.labels.length : ℤ) ∧
    ∀ w ∈ p.windowStart, w ≤ (i : ℤ) ∨ (i : ℤ) + labelShift W L < w)

theorem pkgOk_append {W L : ℕ} (hW : 1 ≤ W) {acc : Option Packaged} {ev : Event}
    {a : ℕ} {vt lab : List Int}
    (ha : firstActive ev.labels = some a)
    (hp : processEvent W L ev = .ok (some (vt, lab)))
    (hacc : ∀ p, acc = some p → PkgOk W L p) :
    PkgOk W L (appendPkg acc ev.signals lab vt) := by
  obtain ⟨hWa, halen, haL, -, -, -⟩ := processEvent_ok_spec hW ha hp
  obtain ⟨hvtlen, hlablen⟩ := processEvent_ok_lengths hW ha hp
  have hmask := processEvent_mask_getD hW ha hp
  cases acc with
  | none =>
    refine ⟨by simp [appendPkg, hvtlen, hlablen], ?_, ?_⟩
    · intro w hw
      simp only [appendPkg, List.mem_singleton] at hw
      subst hw
      simp [appendPkg]
    · intro i hi h1
      simp only [appendPkg] at hi h1 ⊢
      rw [hvtlen] at hi
      have hle : (i : ℤ) ≤ (a : ℤ) - (W : ℤ) := (hmask i hi).mp h1
      constructor
      · rw [hlablen]
        simp only [labelShift]
        omega
      · intro w hw
        simp only [List.mem_singleton] at hw
        subst hw
        left
        omega
  | some p =>
    have hq := hacc p rfl
    obtain ⟨hql, hqw, hqv⟩ := hq
    refine ⟨?_, ?_, ?_⟩
    · simp [appendPkg, hvtlen, hlablen, hql]
    · intro w hw
      simp only [appendPkg, List.mem_append, List.mem_singleton] at hw
      simp only [appendPkg, List.length_append]
      rcases hw with hw | hw
      · have := hqw w hw
        push_cast
        omega
      · subst hw
        push_cast
        omega
    · intro i hi h1
      simp only [appendPkg, List.length_append] at hi h1 ⊢
      by_cases hcase : i < p.validT0.length
      · rw [List.getD_append _ _ _ _ hcase] at h1
        obtain ⟨htgt, hws⟩ := hqv i hcase h1
        constructor
        · push_cast
          omega
        · intro w hw
          rcases List.mem_append.mp hw with hw | hw
          · exact hws w hw
          · rw [List.mem_singleton] at hw
            subst hw
            right
            omega
      · rw [List.getD_append_right _ _ _ _ (by omega)] at h1
        have hj : i - p.validT0.length < ev.labels.length := by
          rw [hvtlen] at hi
          omega
        have hle := (hmask _ hj).mp h1
        constructor
        · simp only [labelShift]
          push_cast
          omega
        · intro w hw
          rcases List.mem_append.mp hw with hw | hw
          · left
            have h2 := (hqw w hw).2
            omega
          · rw [List.mem_singleton] at hw
            subst hw
            left
            omega

theorem buildGo_pkgOk {W L : ℕ} (hW : 1 ≤ W) :
    ∀ (events : List Event) (acc : Option Packaged) (p : Packaged),
      (∀ q, acc = some q → PkgOk W L q) →
      buildGo W L acc events = .ok (.done (some p)) → PkgOk W L p := by
  intro events
  induction events with
  | nil =>
    intro acc p hacc h
    simp only [buildGo, Except.ok.injEq, BuildRes.done.injEq] at h
    exact hacc p h
  | cons ev rest ih =>
    intro acc p hacc h
    simp only [buildGo] at h
    split at h
    · exact absurd h (by simp)
    · exact absurd h (by simp)
    next vt lab heq =>
      obtain ⟨a, ha⟩ := processEvent_ok_exists_firstActive heq
      exact ih _ p (fun q hq => by cases hq; exact pkgOk_append hW ha heq hacc) h

/-! ### Lemmas about the sampling / oversampling stage -/

theorem npGet_ok_mem {l : List Int} {i : ℤ} {v : Int} (h : npGet l i = .ok v) :
    v ∈ l := by
  unfold npGet at h
  split at h
  · split at h
    next hl =>
      cases h
      next h0 =>
        rw [List.getD_eq_getElem _ _ (by omega)]
        exact List.getElem_mem _
    · exact absurd h (by simp)
  · split at h
    next hge =>
      cases h
      next hneg =>
        have hlen : 0 < l.length := by omega
        rw [List.getD_eq_getElem _ _ (by omega)]
        exact List.getElem_mem _
    · exact absurd h (by simp)

theorem mapNpGet_ok_mem {labels : List Int} {xs : List ℤ} {vs : List Int}
    (h : mapNpGet labels xs = .ok vs) : ∀ v ∈ vs, v ∈ labels := by
  induction xs generalizing vs with
  | nil => simp only [mapNpGet] at h; cases h; simp
  | cons i is ih =>
    simp only [mapNpGet] at h
    cases hg : npGet labels i with
    | error e => rw [hg] at h; exact absurd h (by simp)
    | ok v =>
      rw [hg] at h
      cases hm : mapNpGet labels is with
      | error e => rw [hm] at h; exact absurd h (by simp)
      | ok us =>
        rw [hm] at h
        cases h
        intro x hx
        rcases List.mem_cons.mp hx with rfl | hx'
        · exact npGet_ok_mem hg
        · exact ih hm x hx'

theorem length_filter_zip_snd (p : Int → Bool) (l1 : List ℤ) (l2 : List Int)
    (h : l1.length = l2.length) :
    ((l1.zip l2).filter (fun q => p q.2)).length = l2.countP p := by
  rw [← List.countP_eq_length_filter]
  have : (fun q : ℤ × Int => p q.2) = p ∘ Prod.snd := rfl
  rw [this, ← List.countP_map, List.map_snd_zip _ _ (le_of_eq h.symm)]

theorem mem_flatten_replicate {α : Type} {k : ℕ} {l : List α} {x : α}
    (h : x ∈ (List.replicate k l).flatten) : x ∈ l := by
  rw [List.mem_flatten] at h
  obtain ⟨s, hs, hx⟩ := h
  rw [List.eq_of_mem_replicate hs] at hx
  exact hx

/-- The oversampling step of `buildSampleIndices` only appends copies of
origins that were already present. -/
theorem mem_buildSampleIndices {W L : ℕ} {o : Bool} {labels vt : List Int}
    {idx : List ℤ} (h : buildSampleIndices W L o labels vt = .ok idx) :
    ∀ x ∈ idx, x ∈ validIndicesOf vt := by
  simp only [buildSampleIndices] at h
  split at h
  · exact absurd h (by simp)
  next labsV hmap =>
    split at h
    · exact absurd h (by simp)
    next hne =>
      split at h
      · split at h
        · exact absurd h (by simp)
        next hnA =>
          split at h
          · exact absurd h (by simp)
          next hfac =>
            split at h
            · exact absurd h (by simp)
            next labsV2 hmap2 =>
              split at h
              · exact absurd h (by simp)
              next hne2 =>
                cases h
                intro x hx
                simp only [oversampledIndices] at hx
                rcases List.mem_append.mp hx with hx | hx
                · exact hx
                · have hx' := mem_flatten_replicate hx
                  simp only [activeOriginsOf, activeLabelIndicesOf, List.mem_map] at hx'
                  obtain ⟨q, hq, rfl⟩ := hx'
                  obtain ⟨p, hp, rfl⟩ := hq
                  have hp' := (List.mem_filter.mp hp).1
                  have hp1 : p.1 ∈ labelIndicesFor W L (validIndicesOf vt) :=
                    (List.of_mem_zip hp').1
                  simp only [labelIndicesFor, List.mem_map] at hp1
                  obtain ⟨z, hz, hzq⟩ := hp1
                  have : p.1 - labelShift W L = z := by omega
                  rwa [this]
      next hnotover =>
        cases h
        intro x hx
        exact hx

/-- With oversampling disabled, the emitted sample indices are exactly the
valid-origin positions. -/
theorem buildSampleIndices_false_ok {W L : ℕ} {labels vt : List Int}
    {idx : List ℤ} (h : buildSampleIndices W L false labels vt = .ok idx) :
    idx = validIndicesOf vt := by
  simp only [buildSampleIndices] at h
  split at h
  · exact absurd h (by simp)
  next labsV hmap =>
    split at h
    · exact absurd h (by simp)
    next hne =>
      split at h
      next hcond => exact absurd hcond (by simp)
      next =>
        cases h
        rfl

theorem preprocessCore_ok_elim {W L : ℕ} {o : Bool} {events : List Event}
    {r : Result} (h : preprocessCore W L o events = .ok (some r)) :
    ∃ p : Packaged, buildGo W L none events = .ok (.done (some p)) ∧
      buildSampleIndices W L o p.labels p.validT0 = .ok r.sampleIndices ∧
      r.signals = p.signals ∧ r.labels = p.labels ∧ r.windowStart = p.windowStart := by
  unfold preprocessCore at h
  split at h
  · exact absurd h (by simp)
  · exact absurd h (by simp)
  · exact absurd h (by simp)
  next p hgo =>
    split at h
    · exact absurd h (by simp)
    next idx hidx =>
      refine ⟨p, hgo, ?_⟩
      cases h
      exact ⟨hidx, rfl, rfl, rfl⟩

theorem preprocessData_false_shuffle {W L : ℕ} {o : Bool}
    {f : List ℤ → List ℤ} {events : List Event} {r : Result} :
    preprocessData W L o false f events = .ok (some r) ↔
      preprocessCore W L o events = .ok (some r) := by
  unfold preprocessData
  cases hc : preprocessCore W L o events with
  | error e => simp
  | ok v =>
    cases v with
    | none => simp
    | some r' => simp

theorem preprocessData_shuffle_rel {W L : ℕ} {o : Bool}
    {f : List ℤ → List ℤ} {events : List Event} {r : Result}
    (h : preprocessCore W L o events = .ok (some r)) :
    preprocessData W L o true f events =
      .ok (some { r with sampleIndices := f r.sampleIndices }) := by
  unfold preprocessData
  rw [h]
  rfl

/-! ### Abort and error propagation through the event loop -/

theorem processEvent_noActive {W L : ℕ} {ev : Event}
    (h : firstActive ev.labels = none) :
    processEvent W L ev = .error .indexError := by
  unfold processEvent
  rw [h]

theorem processEvent_insufficient {W L : ℕ} {ev : Event} {a : ℕ}
    (ha : firstActive ev.labels = some a) (h : (a : ℤ) - (W : ℤ) < 0) :
    processEvent W L ev = .ok none := by
  unfold processEvent
  rw [ha]
  exact if_pos h

theorem preprocessData_of_abort {W L : ℕ} {o s : Bool} {f : List ℤ → List ℤ}
    {events : List Event} (h : buildGo W L none events = .ok .abort) :
    preprocessData W L o s f events = .ok none := by
  simp only [preprocessData, preprocessCore, h]

theorem preprocessData_of_error {W L : ℕ} {o s : Bool} {f : List ℤ → List ℤ}
    {events : List Event} {e : PyErr} (h : buildGo W L none events = .error e) :
    preprocessData W L o s f events = .error e := by
  simp only [preprocessData, preprocessCore, h]

theorem buildGo_abort {W L : ℕ} :
    ∀ (pre : List Event) (acc : Option Packaged) (ev : Event) (post : List Event),
      (∀ e ∈ pre, ∃ r, processEvent W L e = .ok (some r)) →
      processEvent W L ev = .ok none →
      buildGo W L acc (pre ++ ev :: post) = .ok .abort := by
  intro pre
  induction pre with
  | nil =>
    intro acc ev post _ hev
    simp only [List.nil_append, buildGo, hev]
  | cons e es ih =>
    intro acc ev post hpre hev
    obtain ⟨r, hr⟩ := hpre e (by simp)
    obtain ⟨vt, lab⟩ := r
    simp only [List.cons_append, buildGo, hr]
    exact ih _ ev post (fun e' he' => hpre e' (by simp [he'])) hev

theorem buildGo_error {W L : ℕ} :
    ∀ (pre : List Event) (acc : Option Packaged) (ev : Event) (post : List Event)
      (err : PyErr),
      (∀ e ∈ pre, ∃ r, processEvent W L e = .ok (some r)) →
      processEvent W L ev = .error err →
      buildGo W L acc (pre ++ ev :: post) = .error err := by
  intro pre
  induction pre with
  | nil =>
    intro acc ev post err _ hev
    simp only [List.nil_append, buildGo, hev]
  | cons e es ih =>
    intro acc ev post err hpre hev
    obtain ⟨r, hr⟩ := hpre e (by simp)
    obtain ⟨vt, lab⟩ := r
    simp only [List.cons_append, buildGo, hr]
    exact ih _ ev post err (fun e' he' => hpre e' (by simp [he'])) hev

/-! ### Arithmetic of the oversampling factor -/

theorem oversampleFactor_arg_eq (nA nI : ℕ) (h : 0 < nA) :
    ((1 : ℚ) / 5 * nI) / (nA * (1 - 1 / 5)) = (nI : ℚ) / (4 * nA) := by
  rw [div_eq_div_iff (by positivity) (by positivity)]
  ring

theorem oversampleFactor_ge_one (nA nI : ℕ) (h : 0 < nA) :
    1 ≤ oversampleFactor nA nI := by
  unfold oversampleFactor
  have h0 : (0 : ℚ) ≤ (1 / 5 * nI) / (nA * (1 - 1 / 5)) := by positivity
  have := Int.floor_nonneg.mpr h0
  omega

theorem oversampleFactor_lower (nA nI : ℕ) (h : 0 < nA) :
    (nI : ℚ) < 4 * nA * (oversampleFactor nA nI : ℚ) := by
  unfold oversampleFactor
  rw [oversampleFactor_arg_eq nA nI h]
  have hpos : (0 : ℚ) < 4 * nA := by positivity
  have hlt := Int.lt_floor_add_one ((nI : ℚ) / (4 * nA))
  rw [div_lt_iff₀ hpos] at hlt
  push_cast
  linarith

theorem fraction_ge_floor {X nI : ℚ} (hX : 0 < X) (hlow : (nI : ℚ) < 4 * X)
    (hnI : 0 ≤ nI) :
    (1 : ℚ) / 5 ≤ X / (X + nI) := by
  rw [le_div_iff₀ (by linarith)]
  linarith

/-! ### Counting lemmas -/

theorem countActive_append (a b : List Int) :
    countActive (a ++ b) = countActive a + countActive b :=
  List.countP_append _ _ _

theorem countInactive_append (a b : List Int) :
    countInactive (a ++ b) = countInactive a + countInactive b :=
  List.countP_append _ _ _

theorem countActive_replicate_one (M : ℕ) :
    countActive (List.replicate M 1) = M := by
  unfold countActive
  rw [List.countP_replicate]
  simp

theorem countInactive_replicate_one (M : ℕ) :
    countInactive (List.replicate M 1) = 0 := by
  unfold countInactive
  rw [List.countP_replicate]
  simp

theorem countActive_eq_countOnes {xs : List Int}
    (hbin : ∀ x ∈ xs, x = 0 ∨ x = 1) :
    countActive xs = xs.countP (fun x => x == 1) := by
  unfold countActive
  refine List.countP_congr ?_
  intro x hx
  rcases hbin x hx with rfl | rfl <;> simp

/-! ### Structure of a successful oversampling run -/

theorem buildSampleIndices_ok_extract {W L : ℕ} {o : Bool} {labels vt : List Int}
    {idx : List ℤ} (h : buildSampleIndices W L o labels vt = .ok idx) :
    ∃ labsV,
      mapNpGet labels (labelIndicesFor W L (validIndicesOf vt)) = .ok labsV ∧
        countActive labsV + countInactive labsV ≠ 0 ∧
        ∃ t, idx = validIndicesOf vt ++ t := by
  simp only [buildSampleIndices] at h
  split at h
  · exact absurd h (by simp)
  next labsV hmap =>
    split at h
    · exact absurd h (by simp)
    next hne =>
      refine ⟨labsV, hmap, hne, ?_⟩
      split at h
      · split at h
        · exact absurd h (by simp)
        · split at h
          · exact absurd h (by simp)
          · split at h
            · exact absurd h (by simp)
            next labsV2 hmap2 =>
              split at h
              · exact absurd h (by simp)
              · cases h
                exact ⟨_, rfl⟩
      · cases h
        exact ⟨[], (List.append_nil _).symm⟩

theorem buildSampleIndices_false_intro {W L : ℕ} {labels vt : List Int}
    {labsV : List Int}
    (hmap : mapNpGet labels (labelIndicesFor W L (validIndicesOf vt)) = .ok labsV)
    (hne : countActive labsV + countInactive labsV ≠ 0) :
    buildSampleIndices W L false labels vt = .ok (validIndicesOf vt) := by
  simp only [buildSampleIndices, hmap]
  rw [if_neg hne, if_neg (by simp)]

theorem preprocessCore_intro {W L : ℕ} {o : Bool} {events : List Event}
    {p : Packaged} {idx : List ℤ}
    (hgo : buildGo W L none events = .ok (.done (some p)))
    (hidx : buildSampleIndices W L o p.labels p.validT0 = .ok idx) :
    preprocessCore W L o events = .ok (some ⟨p.signals, p.labels, idx, p.windowStart⟩) := by
  simp only [preprocessCore, hgo, hidx]

theorem length_flatten_replicate {α : Type} (k : ℕ) (l : List α) :
    ((List.replicate k l).flatten).length = k * l.length := by
  induction k with
  | zero => simp
  | succ n ih =>
    rw [List.replicate_succ, List.flatten_cons, List.length_append, ih]
    ring

theorem activeOrigins_shift {W L : ℕ} (labelIdx : List ℤ) (labsV : List Int) :
    List.map (fun i => i + labelShift W L) (activeOriginsOf W L labelIdx labsV) =
      activeLabelIndicesOf labelIdx labsV := by
  unfold activeOriginsOf
  rw [List.map_map]
  exact List.map_id'' (fun x => by simp only [Function.comp_apply]; ring) _

theorem activeLabelIndices_ones {W L : ℕ} {labels : List Int} {labsV : List Int}
    {vt : List Int}
    (hmap : mapNpGet labels (labelIndicesFor W L (validIndicesOf vt)) = .ok labsV) :
    ∀ y ∈ activeLabelIndicesOf (labelIndicesFor W L (validIndicesOf vt)) labsV,
      npGet labels y = .ok 1 := by
  intro y hy
  simp only [activeLabelIndicesOf, List.mem_map] at hy
  obtain ⟨p, hp, rfl⟩ := hy
  rw [List.mem_filter] at hp
  have h1 := mapNpGet_ok_zip hmap p hp.1
  have h2 : p.2 = 1 := by simpa using hp.2
  rw [h2] at h1
  exact h1

/-- Full description of a training-split (`oversample = true`) run of the
sampling stage when the active fraction is below the floor. -/
theorem oversample_run {W L : ℕ} {labels vt labsV : List Int}
    (hbin : ∀ x ∈ labels, x = 0 ∨ x = 1)
    (hmap : mapNpGet labels (labelIndicesFor W L (validIndicesOf vt)) = .ok labsV)
    (hA : 0 < countActive labsV)
    (hfrac : (countActive labsV : ℚ) /
        ((countActive labsV : ℚ) + (countInactive labsV : ℚ)) < 1 / 5) :
    buildSampleIndices W L true labels vt = .ok (oversampledIndices W L vt labsV) ∧
      ∃ labsV2,
        mapNpGet labels (labelIndicesFor W L (oversampledIndices W L vt labsV)) =
            .ok labsV2 ∧
          countActive labsV2 =
            countActive labsV *
              (oversampleFactor (countActive labsV) (countInactive labsV)).toNat ∧
          countInactive labsV2 = countInactive labsV := by
  have hbinV : ∀ v ∈ labsV, v = 0 ∨ v = 1 :=
    fun v hv => hbin _ (mapNpGet_ok_mem hmap v hv)
  have hfac1 := oversampleFactor_ge_one (countActive labsV) (countInactive labsV) hA
  have hlenV : labsV.length = (labelIndicesFor W L (validIndicesOf vt)).length :=
    mapNpGet_length hmap
  have hm : (activeLabelIndicesOf (labelIndicesFor W L (validIndicesOf vt)) labsV).length
      = countActive labsV := by
    unfold activeLabelIndicesOf
    rw [List.length_map,
      length_filter_zip_snd (fun x => x == 1) _ _ hlenV.symm,
      ← countActive_eq_countOnes hbinV]
  -- the recomputed label indices split into the original ones plus copies
  -- of the active label indices
  have hsplit : labelIndicesFor W L (oversampledIndices W L vt labsV) =
      labelIndicesFor W L (validIndicesOf vt) ++
        (List.replicate
            ((oversampleFactor (countActive labsV) (countInactive labsV) - 1).toNat)
            (activeLabelIndicesOf (labelIndicesFor W L (validIndicesOf vt)) labsV)).flatten := by
    unfold oversampledIndices labelIndicesFor
    rw [List.map_append, List.map_flatten, List.map_replicate]
    have := activeOrigins_shift (W := W) (L := L)
      (labelIndicesFor W L (validIndicesOf vt)) labsV
    unfold labelIndicesFor at this
    rw [this]
  have hflat : mapNpGet labels
      ((List.replicate
          ((oversampleFactor (countActive labsV) (countInactive labsV) - 1).toNat)
          (activeLabelIndicesOf (labelIndicesFor W L (validIndicesOf vt)) labsV)).flatten) =
      .ok (List.replicate
        ((List.replicate
            ((oversampleFactor (countActive labsV) (countInactive labsV) - 1).toNat)
            (activeLabelIndicesOf (labelIndicesFor W L (validIndicesOf vt)) labsV)).flatten).length
        1) := by
    apply mapNpGet_ok_of_forall
    intro x hx
    exact activeLabelIndices_ones hmap x (mem_flatten_replicate hx)
  have hmap2 : mapNpGet labels (labelIndicesFor W L (oversampledIndices W L vt labsV)) =
      .ok (labsV ++ List.replicate
        (((oversampleFactor (countActive labsV) (countInactive labsV) - 1).toNat)
          * countActive labsV) 1) := by
    rw [hsplit, mapNpGet_ok_append hmap hflat, length_flatten_replicate, hm]
  have hcA : countActive (labsV ++ List.replicate
      (((oversampleFactor (countActive labsV) (countInactive labsV) - 1).toNat)
        * countActive labsV) 1) =
      countActive labsV *
        (oversampleFactor (countActive labsV) (countInactive labsV)).toNat := by
    rw [countActive_append, countActive_replicate_one]
    have : ((oversampleFactor (countActive labsV) (countInactive labsV) - 1).toNat) + 1 =
        (oversampleFactor (countActive labsV) (countInactive labsV)).toNat := by
      omega
    calc countActive labsV +
          ((oversampleFactor (countActive labsV) (countInactive labsV) - 1).toNat)
            * countActive labsV
        = countActive labsV *
            (((oversampleFactor (countActive labsV) (countInactive labsV) - 1).toNat) + 1) := by
          ring
      _ = _ := by rw [this]
  have hcI : countInactive (labsV ++ List.replicate
      (((oversampleFactor (countActive labsV) (countInactive labsV) - 1).toNat)
        * countActive labsV) 1) = countInactive labsV := by
    rw [countInactive_append, countInactive_replicate_one]
    omega
  refine ⟨?_, _, hmap2, hcA, hcI⟩
  simp only [buildSampleIndices, hmap]
  rw [if_neg (by omega), if_pos ⟨trivial, hfrac⟩, if_neg (by omega), if_neg (by omega)]
  simp only [hmap2]
  have hmul : 0 < countActive labsV *
      (oversampleFactor (countActive labsV) (countInactive labsV)).toNat :=
    Nat.mul_pos hA (by omega)
  rw [if_neg (by rw [hcA]; omega)]

/-! ### Lemmas for the legacy `data.py` pipeline -/

theorem activeIdxs_ne_nil {labels : List Int} (h : ∃ x ∈ labels, 1 ≤ x) :
    activeIdxs labels ≠ [] := by
  obtain ⟨x, hx, h1⟩ := h
  obtain ⟨i, hi, rfl⟩ := List.mem_iff_getElem.mp hx
  intro hnil
  rw [activeIdxs, List.filter_eq_nil_iff] at hnil
  refine hnil i (List.mem_range.mpr hi) ?_
  rw [List.getD_eq_getElem _ _ hi]
  simpa using h1

/-- Invariant of the `get_data` loop state after `n ≥ 1` events: the first
event's stop index was never assigned, so `elm_stop` is the bare `None`
after one event, and an array whose first entry is `None` afterwards. -/
def DInv (p : DPkg) (n : ℕ) : Prop :=
  p.elmStart.length = n ∧ 0 < p.labels.length ∧ (∃ x ∈ p.labels, 1 ≤ x) ∧
    ((n = 1 ∧ p.elmStop = none) ∨
      (2 ≤ n ∧ ∃ rest, p.elmStop = some (none :: rest)))

theorem dataFirst_inv {W L : ℕ} {ev : Event} (hact : ∃ x ∈ ev.labels, 1 ≤ x) :
    ∃ q, dataGetValidIndices W L none ev = .ok q ∧ DInv q 1 := by
  have hne := activeIdxs_ne_nil hact
  obtain ⟨last, hlast⟩ := Option.isSome_iff_exists.mp (List.getLast?_isSome.mpr hne)
  have hstep : dataGetValidIndices W L none ev = .ok
      ⟨ev.signals, ev.labels, dataValidT0 W L ev.labels.length, [0],
        [(last : ℤ)], none⟩ := by
    simp only [dataGetValidIndices, hlast]
  refine ⟨_, hstep, ?_⟩
  obtain ⟨x, hx, h1⟩ := hact
  have hpos0 : 0 < ev.labels.length :=
    List.length_pos.mpr (fun hn => by rw [hn] at hx; exact absurd hx (List.not_mem_nil x))
  exact ⟨rfl, hpos0, ⟨x, hx, h1⟩, Or.inl ⟨rfl, rfl⟩⟩

theorem dataStep_inv {W L : ℕ} {p : DPkg} {n : ℕ} {ev : Event}
    (hact : ∃ x ∈ ev.labels, 1 ≤ x) (hinv : DInv p n) :
    ∃ q, dataGetValidIndices W L (some p) ev = .ok q ∧ DInv q (n + 1) := by
  have hne := activeIdxs_ne_nil hact
  obtain ⟨first, hfst⟩ := Option.isSome_iff_exists.mp (List.head?_isSome.mpr hne)
  obtain ⟨last, hlast⟩ := Option.isSome_iff_exists.mp (List.getLast?_isSome.mpr hne)
  obtain ⟨hlen, hpos, hex, hstop⟩ := hinv
  have hstep : dataGetValidIndices W L (some p) ev = .ok
      ⟨p.signals ++ ev.signals, p.labels ++ ev.labels,
        p.validT0 ++ dataValidT0 W L ev.labels.length,
        p.windowStart ++ [(p.labels.length : ℤ) - 1 + 1],
        p.elmStart ++ [(first : ℤ) + ((p.labels.length : ℤ) - 1) + 1],
        some (match p.elmStop with
          | none => [none, some ((last : ℤ) + ((p.labels.length : ℤ) - 1) + 1)]
          | some l => l ++ [some ((last : ℤ) + ((p.labels.length : ℤ) - 1) + 1)])⟩ := by
    simp only [dataGetValidIndices, hfst, hlast]
  refine ⟨_, hstep, ?_⟩
  refine ⟨by simp [hlen], by simp [hpos], ?_, ?_⟩
  · obtain ⟨x, hx, h1⟩ := hex
    exact ⟨x, List.mem_append.mpr (Or.inl hx), h1⟩
  · rcases hstop with ⟨hn1, hnone⟩ | ⟨hn2, rest, hsome⟩
    · right
      rw [hnone]
      exact ⟨by omega, [some ((last : ℤ) + ((p.labels.length : ℤ) - 1) + 1)], rfl⟩
    · right
      rw [hsome]
      exact ⟨by omega, rest ++ [some ((last : ℤ) + ((p.labels.length : ℤ) - 1) + 1)],
        by simp⟩

theorem dataBuild_inv {W L : ℕ} :
    ∀ (events : List Event) (p : DPkg) (n : ℕ),
      (∀ e ∈ events, ∃ x ∈ e.labels, 1 ≤ x) → DInv p n →
      ∃ q, dataBuild W L events (some p) = .ok (some q) ∧ DInv q (n + events.length) := by
  intro events
  induction events with
  | nil =>
    intro p n _ hinv
    exact ⟨p, rfl, by simpa using hinv⟩
  | cons ev rest ih =>
    intro p n hact hinv
    obtain ⟨q, hq, hqinv⟩ := dataStep_inv (hact ev (by simp)) hinv
    obtain ⟨q2, hq2, hq2inv⟩ := ih q (n + 1) (fun e he => hact e (by simp [he])) hqinv
    refine ⟨q2, ?_, ?_⟩
    · show (match dataGetValidIndices W L (some p) ev with
        | .error e => (Except.error e : Except PyErr (Option DPkg))
        | .ok r => dataBuild W L rest (some r)) = .ok (some q2)
      rw [hq]
      exact hq2
    · have : n + 1 + rest.length = n + (rest.length + 1) := by omega
      rw [this] at hq2inv
      simpa using hq2inv

theorem dataGetData_fails {W L : ℕ} {events : List Event}
    (hne : events ≠ []) (hact : ∀ e ∈ events, ∃ x ∈ e.labels, 1 ≤ x) :
    ∃ q, dataBuild W L events none = .ok (some q) ∧
      (q.elmStop = none ∨ ∃ rest, q.elmStop = some (none :: rest)) ∧
      (events.length = 1 → dataGetData W L events = .error .typeErrorZip) ∧
      (2 ≤ events.length → dataGetData W L events = .error .typeErrorNoneAdd) := by
  obtain ⟨ev, rest, rfl⟩ := List.exists_cons_of_ne_nil hne
  obtain ⟨q0, hq0, hq0inv⟩ := dataFirst_inv (W := W) (L := L) (hact ev (by simp))
  obtain ⟨q, hq, hqinv⟩ :=
    dataBuild_inv rest q0 1 (fun e he => hact e (by simp [he])) hq0inv
  have hbuild : dataBuild W L (ev :: rest) none = .ok (some q) := by
    simp only [dataBuild, hq0]
    exact hq
  obtain ⟨hlen, hpos, hex, hstop⟩ := hqinv
  have hstop' : q.elmStop = none ∨ ∃ r, q.elmStop = some (none :: r) := by
    rcases hstop with ⟨-, h⟩ | ⟨-, r, h⟩
    · exact Or.inl h
    · exact Or.inr ⟨r, h⟩
  have hcount : 0 < q.labels.countP (fun x => decide (1 ≤ x)) := by
    rw [List.countP_pos_iff]
    obtain ⟨x, hx, hx1⟩ := hex
    exact ⟨x, hx, by simpa using hx1⟩
  refine ⟨q, hbuild, hstop', ?_, ?_⟩
  · -- a single event: elm_stop is still `None`; `zip` raises TypeError
    intro hlen'
    simp only [List.length_cons] at hlen'
    have h1 : q.elmStop = none := by
      rcases hstop with ⟨-, h⟩ | ⟨habs, -⟩
      · exact h
      · omega
    simp only [dataGetData, hbuild, dataOversample, h1]
    rw [if_neg (by omega), if_neg (by omega)]
  · -- at least two events: the first zip pair carries a `None` stop
    intro hlen'
    simp only [List.length_cons] at hlen'
    have h2 : ∃ r, q.elmStop = some (none :: r) := by
      rcases hstop with ⟨habs, -⟩ | ⟨-, r, h⟩
      · omega
      · exact ⟨r, h⟩
    obtain ⟨r, hr⟩ := h2
    have hstartne : q.elmStart ≠ [] := by
      intro h0
      rw [h0] at hlen
      simp only [List.length_nil] at hlen
      omega
    obtain ⟨s0, ss, hss⟩ := List.exists_cons_of_ne_nil hstartne
    simp only [dataGetData, hbuild, dataOversample, hr]
    rw [if_neg (by omega), if_neg (by omega)]
    rw [hss]
    simp only [List.zip_cons_cons, dataZipLoop]

/-! ### Claim theorems -/

/-- C1: for every processed event with first active label index
`active_start` and `last_pre_active_origin = active_start - W ≥ 0`, the
valid-origin mask marks exactly the origins `0 .. last_pre_active_origin`
(inclusive) as valid and every other origin in that event invalid —
including any origin at or after the active period and the final
`W + L - 1` origins of the event. -/
theorem valid_origin_mask_exact {W L : ℕ} {ev : Event} {a : ℕ}
    {vt lab : List Int} (hW : 1 ≤ W) (ha : firstActive ev.labels = some a)
    (h : processEvent W L ev = .ok (some (vt, lab))) :
    vt.length = ev.labels.length ∧
      (∀ i : ℕ, i < ev.labels.length →
        (vt.getD i 0 = 1 ↔ (i : ℤ) ≤ (a : ℤ) - (W : ℤ))) ∧
      (∀ i : ℕ, i < ev.labels.length → a ≤ i → vt.getD i 0 = 0) ∧
      (∀ i : ℕ, i < ev.labels.length → ev.labels.length - (W + L - 1) ≤ i →
        vt.getD i 0 = 0) := by
  obtain ⟨hWa, halen, haL, -, -, -⟩ := processEvent_ok_spec hW ha h
  have heq := processEvent_mask_getD_eq hW ha h
  refine ⟨(processEvent_ok_lengths hW ha h).1, processEvent_mask_getD hW ha h, ?_, ?_⟩
  · intro i hi hai
    rw [heq i hi, if_neg (by omega)]
  · intro i hi htail
    rw [heq i hi, if_neg (by omega)]

/-- C2 counterexample: with `W = 3`, `L = 1`, an event whose pre-active
period is shorter than `W` makes `_preprocess_data` return `None` for the
*entire* split: no tuple is emitted and the other event of the split is
not processed — even though that other event is processable on its own
(second conjunct). -/
theorem insufficient_history_aborts_split :
    preprocessData 3 1 false false id [evShortPre, evGoodSmall] = .ok none ∧
      preprocessData 3 1 false false id [evGoodSmall] =
        .ok (some ⟨[7, 7, 7, 7, 7], [0, 0, 0, 1, 0], [0], [0]⟩) := by
  constructor <;> rfl

/-- C2 amended: when an event whose pre-active period is shorter than `W`
is reached (all preceding events processed normally), `_preprocess_data`
returns `None` for the whole split; no `InsufficientHistoryError` type
exists, nothing is logged, and no event of the split is emitted. -/
theorem insufficient_history_returns_none {W L : ℕ} {o s : Bool}
    {f : List ℤ → List ℤ} {pre post : List Event} {ev : Event} {a : ℕ}
    (hpre : ∀ e ∈ pre, ∃ r, processEvent W L e = .ok (some r))
    (ha : firstActive ev.labels = some a) (hlt : (a : ℤ) - (W : ℤ) < 0) :
    preprocessData W L o s f (pre ++ ev :: post) = .ok none :=
  preprocessData_of_abort
    (buildGo_abort pre none ev post hpre (processEvent_insufficient ha hlt))

/-- C4: for every accepted event the extended labels are 1 on
`active_start .. last_pre_active_origin + W + L - 1` (inclusive), the
label at `last_pre_active_origin + W + L - 1` is re-verified to be 1
after extension, and all labels before `active_start` are unchanged. -/
theorem label_extension_correct {W L : ℕ} {ev : Event} {a : ℕ}
    {vt lab : List Int} (hW : 1 ≤ W) (ha : firstActive ev.labels = some a)
    (h : processEvent W L ev = .ok (some (vt, lab))) :
    (∀ i : ℕ, a ≤ i → (i : ℤ) ≤ ((a : ℤ) - W) + W + L - 1 → lab.getD i 0 = 1) ∧
      npGet lab (((a : ℤ) - W) + W + L - 1) = .ok 1 ∧
      (∀ i : ℕ, i < a → lab.getD i 0 = ev.labels.getD i 0) := by
  obtain ⟨hWa, halen, haL, -, -, hver⟩ := processEvent_ok_spec hW ha h
  have hlabeq := processEvent_lab_getD hW ha h
  refine ⟨?_, ?_, ?_⟩
  · intro i hai hile
    have hi : i < ev.labels.length := by omega
    rw [hlabeq i hi, if_pos (by omega)]
  · have harith : ((a : ℤ) - W) + W + L - 1 = (a : ℤ) - W + ((W : ℤ) - 1) + L := by
      ring
    rw [harith]
    exact hver
  · intro i hia
    have hi : i < ev.labels.length := by omega
    rw [hlabeq i hi, if_neg (by omega)]

/-- C6: for binary labels whose first active index `active_start`
satisfies `active_start ≥ W ≥ 1`, both boundary checks of the per-event
pass hold: the label at `last_pre_active_origin + W - 1` is 0 and the
label one step later is 1, so those assertions never fail. -/
theorem boundary_assertions_hold {W : ℕ} {labels : List Int} {a : ℕ}
    (hW : 1 ≤ W) (hbin : ∀ x ∈ labels, x = 0 ∨ x = 1)
    (ha : firstActive labels = some a) (hWa : W ≤ a) :
    npGet labels (((a : ℤ) - W) + ((W : ℤ) - 1)) = .ok 0 ∧
      npGet labels (((a : ℤ) - W) + ((W : ℤ) - 1) + 1) = .ok 1 := by
  obtain ⟨halen, hval, hfirst⟩ := firstActive_spec ha
  have h1 : ((a : ℤ) - W) + ((W : ℤ) - 1) = ((a - 1 : ℕ) : ℤ) := by omega
  have h2 : ((a : ℤ) - W) + ((W : ℤ) - 1) + 1 = ((a : ℕ) : ℤ) := by omega
  constructor
  · rw [h1, npGet_ok_of_nonneg (by positivity) (by omega)]
    have hlt : a - 1 < labels.length := by omega
    have hne1 : labels.getD (a - 1) 0 ≠ 1 := hfirst (a - 1) (by omega)
    have hmem : labels.getD (a - 1) 0 ∈ labels := by
      rw [List.getD_eq_getElem _ _ hlt]
      exact List.getElem_mem _
    rcases hbin _ hmem with h0 | h0
    · simpa [List.getD] using h0
    · exact absurd h0 hne1
  · rw [h2, npGet_ok_of_nonneg (by positivity) (by omega)]
    simpa using hval

/-- C3: for every origin `t0` in the emitted sample indices (all of which
come from the valid-origin mask), the label-target index `t0 + W + L - 1`
lies within the same event as `t0`: it stays inside the timeline and no
entry of the window-start offsets falls in `(t0, t0 + W + L - 1]`, so a
window fetch `signals[t0 : t0+W]` and label lookup `labels[t0+W+L-1]`
never cross an event boundary. -/
theorem no_boundary_crossing {W L : ℕ} {o : Bool} {f : List ℤ → List ℤ}
    {events : List Event} {res : Result} (hW : 1 ≤ W)
    (h : preprocessData W L o false f events = .ok (some res)) :
    ∀ t0 ∈ res.sampleIndices,
      (0 ≤ t0 ∧ t0 + ((W : ℤ) + (L : ℤ) - 1) < (res.labels.length : ℤ)) ∧
        ∀ w ∈ res.windowStart, w ≤ t0 ∨ t0 + ((W : ℤ) + (L : ℤ) - 1) < w := by
  have hcore := preprocessData_false_shuffle.mp h
  obtain ⟨p, hgo, hbsi, hsig, hlabs, hws⟩ := preprocessCore_ok_elim hcore
  have hpk := buildGo_pkgOk hW events none p (by intro q hq; cases hq) hgo
  obtain ⟨hlenvt, hwsb, hvalid⟩ := hpk
  intro t0 ht0
  have hmem := mem_buildSampleIndices hbsi t0 ht0
  obtain ⟨i, hi, hmask, rfl⟩ := mem_validIndicesOf.mp hmem
  obtain ⟨htgt, hw⟩ := hvalid i hi hmask
  have hshift : (i : ℤ) + ((W : ℤ) + (L : ℤ) - 1) = (i : ℤ) + labelShift W L := by
    simp only [labelShift]
    ring
  rw [hlabs, hws, hshift]
  exact ⟨⟨by positivity, htgt⟩, hw⟩

/-- C7: the oversampling step never alters the signals, labels or window
starts — relative to the same split built without oversampling it only
appends extra entries to the sample indices; and a split built with
oversampling disabled (as `_get_data` does for the validation and test
splits, final conjunct) emits the valid origins unmodified, without
duplicates. -/
theorem oversampling_frame_and_split_purity {W L : ℕ} {f : List ℤ → List ℤ}
    {events : List Event} {res1 : Result}
    (h1 : preprocessData W L true false f events = .ok (some res1)) :
    ∃ res0 : Result,
      preprocessData W L false false f events = .ok (some res0) ∧
        res1.signals = res0.signals ∧ res1.labels = res0.labels ∧
        res1.windowStart = res0.windowStart ∧
        (∃ t, res1.sampleIndices = res0.sampleIndices ++ t) ∧
        res0.sampleIndices.Nodup ∧
        ∀ (tr va te : List Event),
          getDataSplits W L f tr va te =
            (preprocessData W L true true f tr,
              preprocessData W L false false f va,
              preprocessData W L false false f te) := by
  have hcore := preprocessData_false_shuffle.mp h1
  obtain ⟨p, hgo, hbsi, hsig, hlabs, hws⟩ := preprocessCore_ok_elim hcore
  obtain ⟨labsV, hmap, hne, t, hpre⟩ := buildSampleIndices_ok_extract hbsi
  have hfalse := buildSampleIndices_false_intro hmap hne
  have hcore0 := preprocessCore_intro hgo hfalse
  refine ⟨⟨p.signals, p.labels, validIndicesOf p.validT0, p.windowStart⟩,
    preprocessData_false_shuffle.mpr hcore0, hsig, hlabs, hws, ⟨t, hpre⟩,
    validIndicesOf_nodup _, fun tr va te => rfl⟩

/-- C9: a split built with shuffling disabled (in `_get_data` those splits
also have oversampling disabled) emits its sample indices in
non-decreasing order; enabling the shuffle flag is the only step that
reorders them — it applies the permutation to the same index sequence. -/
theorem order_preserved_without_shuffle {W L : ℕ} {f : List ℤ → List ℤ}
    {events : List Event} {res : Result}
    (h : preprocessData W L false false f events = .ok (some res)) :
    res.sampleIndices.Sorted (· ≤ ·) ∧
      preprocessData W L false true f events =
        .ok (some { res with sampleIndices := f res.sampleIndices }) := by
  have hcore := preprocessData_false_shuffle.mp h
  obtain ⟨p, hgo, hbsi, hsig, hlabs, hws⟩ := preprocessCore_ok_elim hcore
  have hidx := buildSampleIndices_false_ok hbsi
  constructor
  · rw [hidx]
    exact validIndicesOf_sorted _
  · exact preprocessData_shuffle_rel hcore

/-- C5: when the training split's valid origins have `n_active > 0`
look-ahead targets and the active fraction is below the floor `0.2`, the
balancer's factor `⌊0.2·n_inactive/(n_active·0.8)⌋ + 1` is at least 1,
the run appends `factor - 1` extra copies of every active-labeled valid
origin (that is exactly `oversampledIndices`), and the positive-class
fraction over the final sample indices is `≥ 0.2`; at
`n_active = 10, n_inactive = 990` the factor is `25` and the resulting
fraction is `250/1240 ≥ 0.2`. -/
theorem oversample_factor_and_floor {W L : ℕ} {labels vt labsV : List Int}
    (hbin : ∀ x ∈ labels, x = 0 ∨ x = 1)
    (hmap : mapNpGet labels (labelIndicesFor W L (validIndicesOf vt)) = .ok labsV)
    (hA : 0 < countActive labsV)
    (hfrac : (countActive labsV : ℚ) /
        ((countActive labsV : ℚ) + (countInactive labsV : ℚ)) < 1 / 5) :
    1 ≤ oversampleFactor (countActive labsV) (countInactive labsV) ∧
      buildSampleIndices W L true labels vt = .ok (oversampledIndices W L vt labsV) ∧
      (∃ labsV2,
        mapNpGet labels (labelIndicesFor W L (oversampledIndices W L vt labsV)) =
            .ok labsV2 ∧
          (1 : ℚ) / 5 ≤ (countActive labsV2 : ℚ) /
            ((countActive labsV2 : ℚ) + (countInactive labsV2 : ℚ))) ∧
      oversampleFactor 10 990 = 25 ∧
      ((10 : ℚ) * (oversampleFactor 10 990 : ℚ)) /
          ((10 : ℚ) * (oversampleFactor 10 990 : ℚ) + 990) = 250 / 1240 ∧
      (1 : ℚ) / 5 ≤ 250 / 1240 := by
  obtain ⟨hrun, labsV2, hmap2, hcA, hcI⟩ := oversample_run hbin hmap hA hfrac
  have hk1 := oversampleFactor_ge_one (countActive labsV) (countInactive labsV) hA
  have hklow := oversampleFactor_lower (countActive labsV) (countInactive labsV) hA
  have hfac25 : oversampleFactor 10 990 = 25 := by norm_num [oversampleFactor]
  refine ⟨hk1, hrun, ⟨labsV2, hmap2, ?_⟩, hfac25, by rw [hfac25]; norm_num, by norm_num⟩
  rw [hcA, hcI]
  have hk0 : (0 : ℤ) ≤ oversampleFactor (countActive labsV) (countInactive labsV) := by
    omega
  have htn : (((oversampleFactor (countActive labsV) (countInactive labsV)).toNat : ℕ) : ℚ) =
      ((oversampleFactor (countActive labsV) (countInactive labsV) : ℤ) : ℚ) := by
    exact_mod_cast congrArg (fun z : ℤ => (z : ℚ)) (Int.toNat_of_nonneg hk0)
  have hcast : ((countActive labsV *
      (oversampleFactor (countActive labsV) (countInactive labsV)).toNat : ℕ) : ℚ) =
      (countActive labsV : ℚ) *
        ((oversampleFactor (countActive labsV) (countInactive labsV) : ℤ) : ℚ) := by
    push_cast
    rw [htn]
  rw [hcast]
  have hnAq : (0 : ℚ) < (countActive labsV : ℚ) := by exact_mod_cast hA
  have hkq : (0 : ℚ) <
      ((oversampleFactor (countActive labsV) (countInactive labsV) : ℤ) : ℚ) := by
    exact_mod_cast (by omega : (0 : ℤ) <
      oversampleFactor (countActive labsV) (countInactive labsV))
  refine fraction_ge_floor (mul_pos hnAq hkq) ?_ (by positivity)
  linarith

/-- C8 counterexample: an event with no positive labels makes the whole
preprocessing call fail with an uncaught IndexError; the event is not
skipped with a warning and the following (well-formed) event is never
processed into any emitted tuple. -/
theorem no_active_event_aborts :
    preprocessData 3 1 false false id [evNoActive, evGoodSmall] =
      .error .indexError := by
  rfl

/-- C8 amended: when an event whose labels have no positive entry is
reached, the `active_elm_indices[0]` access raises an uncaught
`IndexError` that aborts the entire `_preprocess_data` call: no
`DataIntegrityError` type exists, nothing is caught or logged, and the
remaining events are not processed. -/
theorem no_active_event_raises_index_error {W L : ℕ} {o s : Bool}
    {f : List ℤ → List ℤ} {pre post : List Event} {ev : Event}
    (hpre : ∀ e ∈ pre, ∃ r, processEvent W L e = .ok (some r))
    (hnone : ∀ x ∈ ev.labels, x ≠ 1) :
    preprocessData W L o s f (pre ++ ev :: post) = .error .indexError :=
  preprocessData_of_error
    (buildGo_error pre none ev post .indexError hpre
      (processEvent_noActive (firstActive_eq_none_iff.mpr hnone)))

/-- C10 counterexample: for a single-event list, `get_data` fails with the
`TypeError` raised by creating `zip(elm_start, elm_stop)` itself
(`elm_stop` is still `None` and `elm_start` a bare scalar); no loop
iteration is reached, so the failure is not the `i_stop + 1` TypeError of
the loop body that the claim describes for every non-empty list. -/
theorem single_event_fails_at_zip :
    dataGetData 2 1 [evLegacyA] = .error .typeErrorZip ∧
      dataGetData 2 1 [evLegacyA] ≠ .error .typeErrorNoneAdd := by
  constructor
  · rfl
  · intro hcontra
    rw [show dataGetData 2 1 [evLegacyA] = .error .typeErrorZip from rfl] at hcontra
    exact absurd hcontra (by simp)

/-- C10 amended: for every non-empty event list (each event containing an
active label), the loop state's `elm_stop` entry for the first event is
`None` (the init branch assigns `elm_start_indices` twice and never
assigns `elm_stop_indices`), and `Data.get_data` never returns normally:
with exactly one event, creating `zip(elm_start, elm_stop)` raises a
`TypeError` before any iteration; with two or more events, the
`i_stop + 1` expression raises a `TypeError` on the first loop
iteration. -/
theorem getData_never_returns {W L : ℕ} {events : List Event}
    (hne : events ≠ []) (hact : ∀ e ∈ events, ∃ x ∈ e.labels, 1 ≤ x) :
    (∃ q, dataBuild W L events none = .ok (some q) ∧
        (q.elmStop = none ∨ ∃ rest, q.elmStop = some (none :: rest))) ∧
      (∃ err, dataGetData W L events = .error err) ∧
      (events.length = 1 → dataGetData W L events = .error .typeErrorZip) ∧
      (2 ≤ events.length → dataGetData W L events = .error .typeErrorNoneAdd) := by
  obtain ⟨q, hb, hstop, h1, h2⟩ := dataGetData_fails hne hact
  refine ⟨⟨q, hb, hstop⟩, ?_, h1, h2⟩
  rcases Nat.lt_or_ge events.length 2 with hl | hl
  · have hlen1 : events.length = 1 := by
      have := List.length_pos.mpr hne
      omega
    exact ⟨_, h1 hlen1⟩
  · exact ⟨_, h2 hl⟩

/-! ### Witnesses -/

/-- Witness for C1 at Scenario A (`W = 20`, `L = 5`, onset at 50). -/
theorem valid_origin_mask_exact_witness :
    (1 ≤ 20 ∧ firstActive evScenarioA.labels = some 50 ∧
      processEvent 20 5 evScenarioA = .ok (some (vtScenarioA, labScenarioA2))) ∧
      (vtScenarioA.length = evScenarioA.labels.length ∧
        (∀ i : ℕ, i < evScenarioA.labels.length →
          (vtScenarioA.getD i 0 = 1 ↔ (i : ℤ) ≤ (50 : ℤ) - (20 : ℤ))) ∧
        (∀ i : ℕ, i < evScenarioA.labels.length → 50 ≤ i →
          vtScenarioA.getD i 0 = 0) ∧
        (∀ i : ℕ, i < evScenarioA.labels.length →
          evScenarioA.labels.length - (20 + 5 - 1) ≤ i →
          vtScenarioA.getD i 0 = 0)) :=
  ⟨⟨by norm_num, by decide, by rfl⟩,
    valid_origin_mask_exact (by norm_num) (by decide) (by rfl)⟩

/-- Witness for the amended C2: the short-pre-active event aborts the
whole split with `None`. -/
theorem insufficient_history_returns_none_witness :
    ((∀ e ∈ ([] : List Event), ∃ r, processEvent 3 1 e = .ok (some r)) ∧
      firstActive evShortPre.labels = some 0 ∧ (0 : ℤ) - (3 : ℤ) < 0) ∧
      preprocessData 3 1 false false id ([] ++ evShortPre :: [evGoodSmall]) =
        .ok none :=
  ⟨⟨by simp, by decide, by decide⟩,
    insufficient_history_returns_none (a := 0) (by simp) (by decide) (by decide)⟩

/-- Witness for C3 on a two-event split (`W = 3`, `L = 1`). -/
theorem no_boundary_crossing_witness :
    (1 ≤ 3 ∧ preprocessData 3 1 false false id [evGoodSmall, evGoodSmall] =
        .ok (some resTwoGood)) ∧
      (∀ t0 ∈ resTwoGood.sampleIndices,
        (0 ≤ t0 ∧ t0 + ((3 : ℤ) + (1 : ℤ) - 1) < (resTwoGood.labels.length : ℤ)) ∧
          ∀ w ∈ resTwoGood.windowStart, w ≤ t0 ∨ t0 + ((3 : ℤ) + (1 : ℤ) - 1) < w) :=
  ⟨⟨by norm_num, by rfl⟩,
    @no_boundary_crossing 3 1 false id [evGoodSmall, evGoodSmall] resTwoGood
      (by norm_num) (by rfl)⟩

/-- Witness for C4 at Scenario A (`W = 20`, `L = 5`, onset at 50). -/
theorem label_extension_correct_witness :
    (1 ≤ 20 ∧ firstActive evScenarioA.labels = some 50 ∧
      processEvent 20 5 evScenarioA = .ok (some (vtScenarioA, labScenarioA2))) ∧
      ((∀ i : ℕ, 50 ≤ i → (i : ℤ) ≤ ((50 : ℤ) - 20) + 20 + 5 - 1 →
          labScenarioA2.getD i 0 = 1) ∧
        npGet labScenarioA2 (((50 : ℤ) - 20) + 20 + 5 - 1) = .ok 1 ∧
        (∀ i : ℕ, i < 50 → labScenarioA2.getD i 0 = evScenarioA.labels.getD i 0)) :=
  ⟨⟨by norm_num, by decide, by rfl⟩,
    label_extension_correct (by norm_num) (by decide) (by rfl)⟩

/-- Witness for C5 with one active and five inactive valid targets
(`W = 1`, `L = 0`): the factor is 2 and one copy of the active origin is
appended. -/
theorem oversample_factor_and_floor_witness :
    ((∀ x ∈ labOversample, x = 0 ∨ x = 1) ∧
      mapNpGet labOversample (labelIndicesFor 1 0 (validIndicesOf vtOversample)) =
        .ok [0, 0, 0, 0, 0, 1] ∧
      0 < countActive [0, 0, 0, 0, 0, 1] ∧
      (countActive [0, 0, 0, 0, 0, 1] : ℚ) /
        ((countActive [0, 0, 0, 0, 0, 1] : ℚ) +
          (countInactive [0, 0, 0, 0, 0, 1] : ℚ)) < 1 / 5) ∧
      (1 ≤ oversampleFactor (countActive [0, 0, 0, 0, 0, 1])
          (countInactive [0, 0, 0, 0, 0, 1]) ∧
        buildSampleIndices 1 0 true labOversample vtOversample =
          .ok (oversampledIndices 1 0 vtOversample [0, 0, 0, 0, 0, 1]) ∧
        (∃ labsV2,
          mapNpGet labOversample (labelIndicesFor 1 0
              (oversampledIndices 1 0 vtOversample [0, 0, 0, 0, 0, 1])) =
              .ok labsV2 ∧
            (1 : ℚ) / 5 ≤ (countActive labsV2 : ℚ) /
              ((countActive labsV2 : ℚ) + (countInactive labsV2 : ℚ))) ∧
        oversampleFactor 10 990 = 25 ∧
        ((10 : ℚ) * (oversampleFactor 10 990 : ℚ)) /
            ((10 : ℚ) * (oversampleFactor 10 990 : ℚ) + 990) = 250 / 1240 ∧
        (1 : ℚ) / 5 ≤ 250 / 1240) :=
  ⟨⟨by decide, by rfl, by decide, by norm_num [countActive, countInactive]⟩,
    oversample_factor_and_floor (by decide) (by rfl) (by decide)
      (by norm_num [countActive, countInactive])⟩

/-- Witness for C6 at Scenario A (`W = 20`, onset at 50): `labels[49] = 0`
and `labels[50] = 1`. -/
theorem boundary_assertions_hold_witness :
    (1 ≤ 20 ∧ (∀ x ∈ labScenarioA, x = 0 ∨ x = 1) ∧
      firstActive labScenarioA = some 50 ∧ 20 ≤ 50) ∧
      (npGet labScenarioA (((50 : ℤ) - 20) + ((20 : ℤ) - 1)) = .ok 0 ∧
        npGet labScenarioA (((50 : ℤ) - 20) + ((20 : ℤ) - 1) + 1) = .ok 1) :=
  ⟨⟨by norm_num, by decide, by decide, by norm_num⟩,
    boundary_assertions_hold (by norm_num) (by decide) (by decide) (by norm_num)⟩

theorem prepTrueOneGood :
    preprocessData 3 1 true false id [evGoodSmall] = .ok (some resOneGood) := by
  have hgo : buildGo 3 1 none [evGoodSmall] =
      .ok (.done (some ⟨[7, 7, 7, 7, 7], [0, 0, 0, 1, 0], [1, 0, 0, 0, 0], [0]⟩)) := by
    rfl
  have hmap : mapNpGet [(0 : Int), 0, 0, 1, 0]
      (labelIndicesFor 3 1 (validIndicesOf [1, 0, 0, 0, 0])) = .ok [1] := by rfl
  have hA : countActive [(1 : Int)] = 1 := by decide
  have hI : countInactive [(1 : Int)] = 0 := by decide
  have hbsi : buildSampleIndices 3 1 true [(0 : Int), 0, 0, 1, 0] [1, 0, 0, 0, 0] =
      .ok [0] := by
    simp only [buildSampleIndices, hmap]
    rw [if_neg (by decide), if_neg (fun hcond => by
      have h2 := hcond.2
      rw [hA, hI] at h2
      norm_num at h2)]
    rfl
  exact preprocessData_false_shuffle.mpr (preprocessCore_intro hgo hbsi)

/-- Witness for C7 on a one-event training split where no oversampling
triggers (the active fraction is already 1). -/
theorem oversampling_frame_and_split_purity_witness :
    preprocessData 3 1 true false id [evGoodSmall] = .ok (some resOneGood) ∧
      ∃ res0 : Result,
        preprocessData 3 1 false false id [evGoodSmall] = .ok (some res0) ∧
          resOneGood.signals = res0.signals ∧ resOneGood.labels = res0.labels ∧
          resOneGood.windowStart = res0.windowStart ∧
          (∃ t, resOneGood.sampleIndices = res0.sampleIndices ++ t) ∧
          res0.sampleIndices.Nodup ∧
          ∀ (tr va te : List Event),
            getDataSplits 3 1 id tr va te =
              (preprocessData 3 1 true true id tr,
                preprocessData 3 1 false false id va,
                preprocessData 3 1 false false id te) :=
  ⟨prepTrueOneGood, oversampling_frame_and_split_purity prepTrueOneGood⟩

/-- Witness for the amended C8: the no-active-label event aborts the whole
run with an IndexError. -/
theorem no_active_event_raises_index_error_witness :
    ((∀ e ∈ ([] : List Event), ∃ r, processEvent 3 1 e = .ok (some r)) ∧
      (∀ x ∈ evNoActive.labels, x ≠ 1)) ∧
      preprocessData 3 1 false false id ([] ++ evNoActive :: [evGoodSmall]) =
        .error .indexError :=
  ⟨⟨by simp, by decide⟩,
    no_active_event_raises_index_error (by simp) (by decide)⟩

/-- Witness for C9 on a two-event split: emitted indices `[0, 5]` are
non-decreasing and the shuffle flag merely applies the permutation. -/
theorem order_preserved_without_shuffle_witness :
    preprocessData 3 1 false false id [evGoodSmall, evGoodSmall] =
        .ok (some resTwoGood) ∧
      (resTwoGood.sampleIndices.Sorted (· ≤ ·) ∧
        preprocessData 3 1 false true id [evGoodSmall, evGoodSmall] =
          .ok (some { resTwoGood with
            sampleIndices := id resTwoGood.sampleIndices })) :=
  ⟨by rfl, order_preserved_without_shuffle (by rfl)⟩

/-- Witness for the amended C10 on a two-event list. -/
theorem getData_never_returns_witness :
    (([evLegacyA, evLegacyB] : List Event) ≠ [] ∧
      (∀ e ∈ [evLegacyA, evLegacyB], ∃ x ∈ e.labels, 1 ≤ x)) ∧
      ((∃ q, dataBuild 2 1 [evLegacyA, evLegacyB] none = .ok (some q) ∧
          (q.elmStop = none ∨ ∃ rest, q.elmStop = some (none :: rest))) ∧
        (∃ err, dataGetData 2 1 [evLegacyA, evLegacyB] = .error err) ∧
        (([evLegacyA, evLegacyB] : List Event).length = 1 →
          dataGetData 2 1 [evLegacyA, evLegacyB] = .error .typeErrorZip) ∧
        (2 ≤ ([evLegacyA, evLegacyB] : List Event).length →
          dataGetData 2 1 [evLegacyA, evLegacyB] = .error .typeErrorNoneAdd)) :=
  ⟨⟨by simp, by decide⟩, getData_never_returns (by simp) (by decide)⟩

end BesModels
